import Mathlib

/-!
Shallow embedding of the particle-collision simulation kernel of
`src/main.rs`: the data model, per-particle integration with wall
reflection, the pairwise collision sweep with its velocity and color
updates, and the per-tick `update`.  Machine floats (`f32`) are modelled
by exact rationals.  Square roots, which the `f32` code takes via
`sqrt`, are eliminated exactly: a comparison against a square root is
squared, and a floor of a quotient by a square root goes through
`Nat.sqrt`.  Rust's saturating float-to-`u8` cast is
`min 255 ∘ Int.toNat ∘ Int.floor` on nonnegative values, and a `0/0`
(`NaN` in Rust, cast to `0` by `as u8`) is the rational junk value `0`.
-/

/-- 2D vector with rational components, modelling `ggez::mint::Vector2<f32>`
(and `Point2<f32>`). -/
structure Vec2 where
  x : ℚ
  y : ℚ
  deriving DecidableEq, Repr

/-- RGB color, one byte per channel, modelling `ggez::graphics::Color` as
built by `Color::from_rgb`. -/
structure Color where
  r : ℕ
  g : ℕ
  b : ℕ
  deriving DecidableEq, Repr

/-- The global constants of `main.rs` (`SCREEN_WIDTH`, `SCREEN_HEIGHT`,
`RESTITUTION`, `ACCELERATION`, `RESISTANCE`), gathered as a parameter so
that theorems can quantify over them. -/
structure Config where
  screenWidth : ℚ
  screenHeight : ℚ
  restitution : ℚ
  acceleration : Vec2
  resistance : Vec2
  deriving DecidableEq, Repr

/-- The shipped constant values of `main.rs`. -/
def sourceConfig : Config :=
  { screenWidth := 1280, screenHeight := 720, restitution := 1,
    acceleration := ⟨-1, 2⟩, resistance := ⟨0, 0⟩ }

/-- `struct Particle` of `main.rs`. -/
structure Particle where
  rad : ℚ
  pos : Vec2
  mass : ℚ
  vel : Vec2
  color : Color
  deriving DecidableEq, Repr

/-- The square of `Particle::distance(other)`: the argument of its `sqrt`.
The distance itself is `√distSq`; keeping the square keeps everything in
`ℚ`. -/
def Particle.distSq (p q : Particle) : ℚ :=
  let dx := p.pos.x - q.pos.x
  let dy := p.pos.y - q.pos.y
  dx * dx + dy * dy

/-- `√dsq ≤ t`, decided exactly over `ℚ`: for `0 ≤ dsq` this is
`0 ≤ t ∧ dsq ≤ t·t` (see `sqrtLe_iff_sqrt_le`). -/
def sqrtLe (dsq t : ℚ) : Bool :=
  decide (0 ≤ t ∧ dsq ≤ t * t)

/-- `Particle::is_colliding`: `distance(other) - (rad + other.rad) ≤ 0.5`,
rewritten as `distance ≤ rad + other.rad + 1/2` and decided on squares. -/
def Particle.is_colliding (p q : Particle) : Bool :=
  sqrtLe (p.distSq q) (p.rad + q.rad + 1 / 2)

/-- Squared Euclidean magnitude of a vector: the argument of the `sqrt`
in `Particle::vel_magnitude`. -/
def Vec2.magSq (v : Vec2) : ℚ :=
  v.x * v.x + v.y * v.y

/-- Fuel-driven copy of `Nat.sqrt.iter` (Newton's method), structurally
recursive so that the kernel can evaluate it; with `guess ≤ fuel` it
agrees with `Nat.sqrt.iter` (`sqrtIter_eq`). -/
def sqrtIter (n : ℕ) : ℕ → ℕ → ℕ
  | 0, guess => guess
  | fuel + 1, guess =>
    let next := (guess + n / guess) / 2
    if _h : next < guess then sqrtIter n fuel next else guess

/-- Kernel-evaluable integer square root, equal to `Nat.sqrt`
(`intSqrt_eq`). -/
def intSqrt (n : ℕ) : ℕ :=
  if n ≤ 1 then n else sqrtIter n (n / 2) (n / 2)

/-- `⌊num / √den⌋` computed exactly over `ℚ` (for `0 ≤ num`, `0 ≤ den`):
`⌊num/√den⌋ = ⌊√(num²/den)⌋ = Nat.sqrt ⌊num²/den⌋`.  When `den = 0` the
rational division yields the junk value `0`, matching Rust's `NaN`
being cast to `0`. -/
def floorDivSqrt (num den : ℚ) : ℕ :=
  intSqrt (⌊num * num / den⌋).toNat

/-- Rust's saturating float-to-`u8` cast, on a nonnegative channel value. -/
def u8clamp (n : ℕ) : ℕ := min 255 n

/-- The color computed in `GameState::handle_collisions` after a
collision, from the two post-collision velocities: with `s1, s2` the
magnitudes, `a = |v1.x/s1|`, `b = |v1.y/s1|`, `c = |v2.x/s2|`,
`d = |v2.y/s2|`, the channels are `(a·b·256, c·d·256, d·a·256)` cast to
`u8`.  Since `a·b·256 = 256·|v1.x·v1.y| / √(s1²·s1²)` (and likewise for
the other channels) each channel is a `floorDivSqrt`. -/
def newColor (v1 v2 : Vec2) : Color :=
  let m1 := v1.magSq
  let m2 := v2.magSq
  { r := u8clamp (floorDivSqrt (|v1.x * v1.y| * 256) (m1 * m1)),
    g := u8clamp (floorDivSqrt (|v2.x * v2.y| * 256) (m2 * m2)),
    b := u8clamp (floorDivSqrt (|v2.y * v1.x| * 256) (m2 * m1)) }

/-- The `v1` of the collision update in `handle_collisions`, with `e` the
restitution and `r = m2/m1`: component-wise
`((1 - e)/2)·u1 + ((r + e)/2)·u2`. -/
def v1formula (e r : ℚ) (u1 u2 : Vec2) : Vec2 :=
  ⟨(1 - e) / 2 * u1.x + (r + e) / 2 * u2.x,
   (1 - e) / 2 * u1.y + (r + e) / 2 * u2.y⟩

/-- The `v2` of the collision update in `handle_collisions`:
component-wise `((1 + e)/2)·u1 + ((r - e)/2)·u2`. -/
def v2formula (e r : ℚ) (u1 u2 : Vec2) : Vec2 :=
  ⟨(1 + e) / 2 * u1.x + (r - e) / 2 * u2.x,
   (1 + e) / 2 * u1.y + (r - e) / 2 * u2.y⟩

/-- One iteration of the inner loop of `GameState::handle_collisions`,
acting on the particles at indices `i` and `j`: if they collide, update
both velocities by the 1D formula and give both particles the color
recomputed from the new velocities.  Out-of-bounds indexing (which the
sweep never performs, see `pair_sweep_bounds`) is `none`, modelling a
Rust index panic. -/
def collidePair (cfg : Config) (ps : List Particle) (i j : ℕ) : Option (List Particle) :=
  match ps[i]?, ps[j]? with
  | some pi, some pj =>
    if pi.is_colliding pj then
      let m2_div_m1 := pj.mass / pi.mass
      let v1 := v1formula cfg.restitution m2_div_m1 pi.vel pj.vel
      let v2 := v2formula cfg.restitution m2_div_m1 pi.vel pj.vel
      let c := newColor v1 v2
      some ((ps.set i { pi with vel := v1, color := c }).set j { pj with vel := v2, color := c })
    else
      some ps
  | _, _ => none

/-- Runs `collidePair` over a list of index pairs in order, threading the
particle list; `none` aborts (an index panic). -/
def sweepPairs (cfg : Config) : List Particle → List (ℕ × ℕ) → Option (List Particle)
  | ps, [] => some ps
  | ps, (i, j) :: rest =>
    match collidePair cfg ps i j with
    | some qs => sweepPairs cfg qs rest
    | none => none

/-- The index pairs `(i, j)` with `0 ≤ i < j < n`, in the lexicographic
order of the two nested `for` loops of `handle_collisions`
(`i in 0..n-1`, `j in i+1..n`). -/
def pairList (n : ℕ) : List (ℕ × ℕ) :=
  (List.range (n - 1)).flatMap fun i =>
    (List.range' (i + 1) (n - (i + 1))).map fun j => (i, j)

/-- `GameState::handle_collisions`.  With no particles the Rust loop
bound `num_particles - 1` underflows `usize` (a panic under overflow
checks); modelled as `none`. -/
def GameState.handle_collisions (cfg : Config) (ps : List Particle) : Option (List Particle) :=
  if ps.length = 0 then none
  else sweepPairs cfg ps (pairList ps.length)

/-- The x-velocity after the bound checks at the top of
`Particle::update`: reflection against the left/right walls, evaluated
before the position advance. -/
def reflectVelX (cfg : Config) (p : Particle) : ℚ :=
  if p.pos.x - p.rad < 0 then |p.vel.x| * cfg.restitution
  else if p.pos.x + p.rad > cfg.screenWidth then |p.vel.x| * -cfg.restitution
  else p.vel.x

/-- The y-velocity after the bound checks at the top of
`Particle::update`: reflection against the top/bottom walls. -/
def reflectVelY (cfg : Config) (p : Particle) : ℚ :=
  if p.pos.y - p.rad < 0 then |p.vel.y| * cfg.restitution
  else if p.pos.y + p.rad > cfg.screenHeight then |p.vel.y| * -cfg.restitution
  else p.vel.y

/-- `Particle::update`: wall reflection, then the position advance with
the reflected velocity, then acceleration minus quadratic resistance on
the velocity. -/
def Particle.update (cfg : Config) (p : Particle) (time_elapsed : ℚ) : Particle :=
  let vx := reflectVelX cfg p
  let vy := reflectVelY cfg p
  let resistance_x := vx * vx * cfg.resistance.x
  let resistance_y := vy * vy * cfg.resistance.y
  { p with
    pos := ⟨p.pos.x + vx * time_elapsed, p.pos.y + vy * time_elapsed⟩,
    vel := ⟨vx + (cfg.acceleration.x - resistance_x) * time_elapsed,
            vy + (cfg.acceleration.y - resistance_y) * time_elapsed⟩ }

/-- `GameState::handle_movement`: integrate every particle in index
order. -/
def GameState.handle_movement (cfg : Config) (ps : List Particle) (time_elapsed : ℚ) : List Particle :=
  ps.map fun p => p.update cfg time_elapsed

/-- `EventHandler::update` for `GameState`: the whole per-tick step —
`handle_collisions` first, then `handle_movement`. -/
def GameState.update (cfg : Config) (ps : List Particle) (time_elapsed : ℚ) : Option (List Particle) :=
  (GameState.handle_collisions cfg ps).map
    fun qs => GameState.handle_movement cfg qs time_elapsed

/-! ### Concrete scenario data -/

/-- Scenario S4, particle 1: `pos=(100,360)`, `rad=10`, `mass=1`, `vel=(10,0)`. -/
def s4p1 : Particle := ⟨10, ⟨100, 360⟩, 1, ⟨10, 0⟩, ⟨170, 216, 211⟩⟩

/-- Scenario S4, particle 2: `pos=(115,360)`, `rad=10`, `mass=2`, `vel=(-10,0)`. -/
def s4p2 : Particle := ⟨10, ⟨115, 360⟩, 2, ⟨-10, 0⟩, ⟨170, 216, 211⟩⟩

/-- The constants used by scenarios S1/S2: like the shipped ones but with
acceleration `(0,0)`. -/
def cfgNoAccel : Config := ⟨1280, 720, 1, ⟨0, 0⟩, ⟨0, 0⟩⟩

/-- Scenario S1 particle: `pos=(640,360)`, `vel=(10,0)`, `rad=10`, `mass=1`. -/
def s1p : Particle := ⟨10, ⟨640, 360⟩, 1, ⟨10, 0⟩, ⟨0, 173, 181⟩⟩

/-- Scenario S2 particle: `pos=(5,360)`, `vel=(-20,0)`, `rad=10`. -/
def s2p : Particle := ⟨10, ⟨5, 360⟩, 1, ⟨-20, 0⟩, ⟨50, 175, 230⟩⟩

/-- Zero-speed collision test, particle 1: `vel=(3,4)`. -/
def c5pa : Particle := ⟨10, ⟨100, 360⟩, 1, ⟨3, 4⟩, ⟨170, 216, 211⟩⟩

/-- Zero-speed collision test, particle 2: at rest (`vel=(0,0)`), so with
`e = 1` and equal masses the post-collision velocity of particle 1 is the
zero vector. -/
def c5pb : Particle := ⟨10, ⟨115, 360⟩, 1, ⟨0, 0⟩, ⟨170, 216, 211⟩⟩

/-! ### Square-root computation lemmas -/

lemma sqrtIter_eq (n : ℕ) : ∀ fuel guess, guess ≤ fuel →
    sqrtIter n fuel guess = Nat.sqrt.iter n guess := by
  intro fuel
  induction fuel with
  | zero =>
    intro guess h
    interval_cases guess
    rw [Nat.sqrt.iter]
    simp [sqrtIter]
  | succ fuel ih =>
    intro guess h
    rw [Nat.sqrt.iter, sqrtIter]
    split
    · exact ih _ (by omega)
    · rfl

lemma intSqrt_eq (n : ℕ) : intSqrt n = Nat.sqrt n := by
  unfold intSqrt Nat.sqrt
  split
  · rfl
  · exact sqrtIter_eq n _ _ le_rfl

lemma ratFloorSqrt (q : ℚ) (hq : 0 ≤ q) :
    ⌊Real.sqrt ((q : ℚ) : ℝ)⌋ = (Nat.sqrt (⌊q⌋).toNat : ℤ) := by
  have hzn : ((⌊q⌋).toNat : ℤ) = ⌊q⌋ := Int.toNat_of_nonneg (Int.floor_nonneg.mpr hq)
  have h1 : ((⌊q⌋).toNat : ℚ) ≤ q := by
    have h := Int.floor_le q
    rw [← hzn] at h
    exact_mod_cast h
  have h2 : q < (⌊q⌋).toNat + 1 := by
    have h := Int.lt_floor_add_one q
    rw [← hzn] at h
    exact_mod_cast h
  rw [Int.floor_eq_iff]
  constructor
  · push_cast
    calc (Nat.sqrt (⌊q⌋).toNat : ℝ) ≤ Real.sqrt ((⌊q⌋).toNat : ℝ) :=
          Real.nat_sqrt_le_real_sqrt
    _ ≤ Real.sqrt (q : ℝ) := Real.sqrt_le_sqrt (by exact_mod_cast h1)
  · have hb : ((⌊q⌋).toNat : ℝ) + 1 ≤ ((Nat.sqrt (⌊q⌋).toNat : ℝ) + 1) ^ 2 := by
      have h := Nat.succ_le_of_lt (Nat.lt_succ_sqrt (⌊q⌋).toNat)
      have h' : ((⌊q⌋).toNat : ℝ) + 1 ≤ ((Nat.sqrt (⌊q⌋).toNat : ℝ) + 1) *
          ((Nat.sqrt (⌊q⌋).toNat : ℝ) + 1) := by exact_mod_cast h
      nlinarith [h']
    have hq2 : (q : ℝ) < ((⌊q⌋).toNat : ℝ) + 1 := by exact_mod_cast h2
    have hlt : (q : ℝ) < ((Nat.sqrt (⌊q⌋).toNat : ℝ) + 1) ^ 2 := by linarith
    have hfin := (Real.sqrt_lt' (by positivity)).mpr hlt
    push_cast
    linarith [hfin]

lemma floorDivSqrt_zero_den (num : ℚ) : floorDivSqrt num 0 = 0 := by
  simp [floorDivSqrt, intSqrt_eq, div_zero]

lemma floorDivSqrt_eq (num den : ℚ) (hnum : 0 ≤ num) (hden : 0 ≤ den) :
    (floorDivSqrt num den : ℤ) = ⌊(num : ℝ) / Real.sqrt ((den : ℚ) : ℝ)⌋ := by
  rcases eq_or_lt_of_le hden with h0 | hpos
  · rw [← h0, floorDivSqrt_zero_den]
    simp
  · have key : (num : ℝ) / Real.sqrt ((den : ℚ) : ℝ) =
        Real.sqrt ((num * num / den : ℚ) : ℝ) := by
      push_cast
      rw [Real.sqrt_div (mul_self_nonneg _), Real.sqrt_mul_self (by exact_mod_cast hnum)]
    rw [key, ratFloorSqrt _ (div_nonneg (mul_self_nonneg num) hden)]
    simp [floorDivSqrt, intSqrt_eq]

lemma u8_channel_eq (px py mx my : ℚ) (hmx : 0 < mx) (hmy : 0 < my) :
    u8clamp (floorDivSqrt (|px * py| * 256) (mx * my)) =
      min 255 (⌊|(px : ℝ)| / Real.sqrt ((mx : ℚ) : ℝ) *
        (|(py : ℝ)| / Real.sqrt ((my : ℚ) : ℝ)) * 256⌋).toNat := by
  have h1 : (floorDivSqrt (|px * py| * 256) (mx * my) : ℤ) =
      ⌊((|px * py| * 256 : ℚ) : ℝ) / Real.sqrt ((mx * my : ℚ) : ℝ)⌋ :=
    floorDivSqrt_eq _ _ (by positivity) (by positivity)
  have hsx : Real.sqrt ((mx : ℚ) : ℝ) ≠ 0 := Real.sqrt_ne_zero'.mpr (by exact_mod_cast hmx)
  have hsy : Real.sqrt ((my : ℚ) : ℝ) ≠ 0 := Real.sqrt_ne_zero'.mpr (by exact_mod_cast hmy)
  have h2 : ((|px * py| * 256 : ℚ) : ℝ) / Real.sqrt ((mx * my : ℚ) : ℝ) =
      |(px : ℝ)| / Real.sqrt ((mx : ℚ) : ℝ) * (|(py : ℝ)| / Real.sqrt ((my : ℚ) : ℝ)) * 256 := by
    push_cast
    rw [Real.sqrt_mul (by exact_mod_cast hmx.le), abs_mul]
    field_simp
    try ring
  have h3 : ⌊|(px : ℝ)| / Real.sqrt ((mx : ℚ) : ℝ) *
      (|(py : ℝ)| / Real.sqrt ((my : ℚ) : ℝ)) * 256⌋ =
      (floorDivSqrt (|px * py| * 256) (mx * my) : ℤ) := by
    rw [h1, h2]
  rw [h3]
  simp [u8clamp]

/-! ### List and sweep lemmas -/

lemma map_set_preserve {α β : Type} (f : α → β) :
    ∀ (l : List α) (n : ℕ) (a : α), (∀ x, l[n]? = some x → f a = f x) →
      (l.set n a).map f = l.map f := by
  intro l
  induction l with
  | nil => intro n a _; rfl
  | cons hd tl ih =>
    intro n a h
    cases n with
    | zero =>
      simp only [List.set_cons_zero, List.map_cons]
      rw [h hd (by simp)]
    | succ n =>
      simp only [List.set_cons_succ, List.map_cons]
      rw [ih n a (fun x hx => h x (by simpa using hx))]

lemma collidePair_result (cfg : Config) (ps : List Particle) (i j : ℕ) (pi pj : Particle)
    (hi : ps[i]? = some pi) (hj : ps[j]? = some pj)
    (hcol : pi.is_colliding pj = true) :
    collidePair cfg ps i j =
      some ((ps.set i
        { pi with vel := v1formula cfg.restitution (pj.mass / pi.mass) pi.vel pj.vel,
                  color := newColor (v1formula cfg.restitution (pj.mass / pi.mass) pi.vel pj.vel)
                                    (v2formula cfg.restitution (pj.mass / pi.mass) pi.vel pj.vel) }).set j
        { pj with vel := v2formula cfg.restitution (pj.mass / pi.mass) pi.vel pj.vel,
                  color := newColor (v1formula cfg.restitution (pj.mass / pi.mass) pi.vel pj.vel)
                                    (v2formula cfg.restitution (pj.mass / pi.mass) pi.vel pj.vel) }) := by
  simp only [collidePair, hi, hj, hcol, if_true]

lemma collidePair_not (cfg : Config) (ps : List Particle) (i j : ℕ) (pi pj : Particle)
    (hi : ps[i]? = some pi) (hj : ps[j]? = some pj)
    (hcol : pi.is_colliding pj = false) :
    collidePair cfg ps i j = some ps := by
  simp only [collidePair, hi, hj, hcol]
  rfl

lemma set_set_getElem? (ps : List Particle) (i j : ℕ) (a b : Particle)
    (hij : i ≠ j) (hi : i < ps.length) (hj : j < ps.length) :
    ((ps.set i a).set j b)[i]? = some a ∧ ((ps.set i a).set j b)[j]? = some b := by
  constructor
  · rw [List.getElem?_set_ne (Ne.symm hij), List.getElem?_set_self (by simpa using hi)]
  · rw [List.getElem?_set_self (by simpa using hj)]

lemma collidePair_spec (cfg : Config) (ps : List Particle) (i j : ℕ)
    (hij : i ≠ j) (hi : i < ps.length) (hj : j < ps.length) :
    ∃ qs, collidePair cfg ps i j = some qs ∧ qs.length = ps.length ∧
      qs.map Particle.pos = ps.map Particle.pos ∧
      qs.map Particle.rad = ps.map Particle.rad ∧
      qs.map Particle.mass = ps.map Particle.mass := by
  have hi' : ps[i]? = some ps[i] := List.getElem?_eq_getElem hi
  have hj' : ps[j]? = some ps[j] := List.getElem?_eq_getElem hj
  by_cases hcol : ps[i].is_colliding ps[j] = true
  · rw [collidePair_result cfg ps i j _ _ hi' hj' hcol]
    refine ⟨_, rfl, by simp, ?_, ?_, ?_⟩
    all_goals
      refine (map_set_preserve _ _ _ _ ?_).trans (map_set_preserve _ _ _ _ ?_) <;>
        intro x hx
    · rw [List.getElem?_set_ne hij, hj'] at hx
      cases hx
      rfl
    · rw [hi'] at hx
      cases hx
      rfl
    · rw [List.getElem?_set_ne hij, hj'] at hx
      cases hx
      rfl
    · rw [hi'] at hx
      cases hx
      rfl
    · rw [List.getElem?_set_ne hij, hj'] at hx
      cases hx
      rfl
    · rw [hi'] at hx
      cases hx
      rfl
  · rw [collidePair_not cfg ps i j _ _ hi' hj' (by simpa using hcol)]
    exact ⟨ps, rfl, rfl, rfl, rfl, rfl⟩

lemma sweepPairs_spec (cfg : Config) :
    ∀ (pairs : List (ℕ × ℕ)) (ps : List Particle),
      (∀ ij ∈ pairs, ij.1 < ps.length ∧ ij.2 < ps.length ∧ ij.1 ≠ ij.2) →
      ∃ qs, sweepPairs cfg ps pairs = some qs ∧ qs.length = ps.length ∧
        qs.map Particle.pos = ps.map Particle.pos ∧
        qs.map Particle.rad = ps.map Particle.rad ∧
        qs.map Particle.mass = ps.map Particle.mass := by
  intro pairs
  induction pairs with
  | nil => exact fun ps _ => ⟨ps, rfl, rfl, rfl, rfl, rfl⟩
  | cons hd tl ih =>
    intro ps hb
    obtain ⟨i, j⟩ := hd
    obtain ⟨hbi, hbj, hbij⟩ := hb (i, j) (by simp)
    obtain ⟨qs1, hq1, hlen1, hpos1, hrad1, hmass1⟩ := collidePair_spec cfg ps i j hbij hbi hbj
    obtain ⟨qs2, hq2, hlen2, hpos2, hrad2, hmass2⟩ :=
      ih qs1 (fun ij hij => hlen1 ▸ hb ij (List.mem_cons_of_mem _ hij))
    refine ⟨qs2, ?_, hlen2.trans hlen1, hpos2.trans hpos1, hrad2.trans hrad1,
      hmass2.trans hmass1⟩
    rw [sweepPairs, hq1]
    exact hq2

lemma mem_pairList {n : ℕ} {ij : ℕ × ℕ} (h : ij ∈ pairList n) : ij.1 < ij.2 ∧ ij.2 < n := by
  unfold pairList at h
  rw [List.mem_flatMap] at h
  obtain ⟨i, hi, hmem⟩ := h
  rw [List.mem_map] at hmem
  obtain ⟨j, hj, rfl⟩ := hmem
  rw [List.mem_range] at hi
  rw [List.mem_range'_1] at hj
  exact ⟨by omega, by omega⟩

lemma handle_collisions_spec (cfg : Config) (ps : List Particle) (h : ps ≠ []) :
    ∃ qs, GameState.handle_collisions cfg ps = some qs ∧ qs.length = ps.length ∧
      qs.map Particle.pos = ps.map Particle.pos ∧
      qs.map Particle.rad = ps.map Particle.rad ∧
      qs.map Particle.mass = ps.map Particle.mass := by
  unfold GameState.handle_collisions
  rw [if_neg (by simpa using h)]
  exact sweepPairs_spec cfg (pairList ps.length) ps
    (fun ij hij => by
      obtain ⟨h1, h2⟩ := mem_pairList hij
      exact ⟨by omega, h2, by omega⟩)

/-! ### Claim theorems -/

/-- **C1.** For every pair `(i, j)` with `i < j` whose particles collide at
the time the pair is visited, the collision update sets, component-wise on
x and y with `u1, u2` the current velocities and `r = m_j/m_i`:
`vel_i = ((1-e)/2)·u1 + ((r+e)/2)·u2` and
`vel_j = ((1+e)/2)·u1 + ((r-e)/2)·u2`. -/
theorem collision_velocity_update (cfg : Config) (ps : List Particle) (i j : ℕ)
    (pi pj : Particle) (hij : i < j) (hi : ps[i]? = some pi) (hj : ps[j]? = some pj)
    (hcol : pi.is_colliding pj = true) :
    ∃ qs, collidePair cfg ps i j = some qs ∧
      (qs[i]?).map Particle.vel = some
        ⟨(1 - cfg.restitution) / 2 * pi.vel.x +
           (pj.mass / pi.mass + cfg.restitution) / 2 * pj.vel.x,
         (1 - cfg.restitution) / 2 * pi.vel.y +
           (pj.mass / pi.mass + cfg.restitution) / 2 * pj.vel.y⟩ ∧
      (qs[j]?).map Particle.vel = some
        ⟨(1 + cfg.restitution) / 2 * pi.vel.x +
           (pj.mass / pi.mass - cfg.restitution) / 2 * pj.vel.x,
         (1 + cfg.restitution) / 2 * pi.vel.y +
           (pj.mass / pi.mass - cfg.restitution) / 2 * pj.vel.y⟩ := by
  obtain ⟨hilt, -⟩ := List.getElem?_eq_some.mp hi
  obtain ⟨hjlt, -⟩ := List.getElem?_eq_some.mp hj
  rw [collidePair_result cfg ps i j pi pj hi hj hcol]
  obtain ⟨e1, e2⟩ := set_set_getElem? ps i j _ _ (Nat.ne_of_lt hij) hilt hjlt
  exact ⟨_, rfl, by rw [e1]; rfl, by rw [e2]; rfl⟩

/-- Witness for `collision_velocity_update`: scenario S4 (`r = 2`, `e = 1`,
`u1.x = 10`, `u2.x = -10`) gives `vel_1.x = -15` and `vel_2.x = 5`. -/
theorem collision_velocity_update_s4 :
    ∃ qs, collidePair sourceConfig [s4p1, s4p2] 0 1 = some qs ∧
      (qs[0]?).map Particle.vel = some ⟨-15, 0⟩ ∧
      (qs[1]?).map Particle.vel = some ⟨5, 0⟩ := by
  obtain ⟨qs, h1, h2, h3⟩ :=
    collision_velocity_update sourceConfig [s4p1, s4p2] 0 1 s4p1 s4p2
      (by omega) rfl rfl (by with_unfolding_all rfl)
  refine ⟨qs, h1, ?_, ?_⟩
  · rw [h2]
    with_unfolding_all rfl
  · rw [h3]
    with_unfolding_all rfl

/-- **C2.** Every `step(dt)` first resolves all pairwise collisions (which
leave every position unchanged), and only then integrates every particle:
the step is exactly `handle_movement` applied to the `handle_collisions`
result. -/
theorem step_collisions_before_integration (cfg : Config) (dt : ℚ)
    (ps qs : List Particle) (hc : GameState.handle_collisions cfg ps = some qs) :
    qs.map Particle.pos = ps.map Particle.pos ∧
    GameState.update cfg ps dt = some (GameState.handle_movement cfg qs dt) := by
  have hne : ps ≠ [] := by
    intro h0
    rw [h0] at hc
    simp [GameState.handle_collisions] at hc
  obtain ⟨qs2, hq2, -, hpos, -, -⟩ := handle_collisions_spec cfg ps hne
  rw [hc] at hq2
  cases hq2
  exact ⟨hpos, by simp only [GameState.update, hc, Option.map_some']⟩

/-- Witness for `step_collisions_before_integration`: the S4 pair. -/
theorem step_collisions_before_integration_s4 :
    ([{ s4p1 with vel := (⟨-15, 0⟩ : Vec2), color := (⟨0, 0, 0⟩ : Color) },
      { s4p2 with vel := (⟨5, 0⟩ : Vec2), color := (⟨0, 0, 0⟩ : Color) }].map Particle.pos
        = [s4p1, s4p2].map Particle.pos) ∧
    GameState.update sourceConfig [s4p1, s4p2] (1/10) =
      some (GameState.handle_movement sourceConfig
        [{ s4p1 with vel := ⟨-15, 0⟩, color := ⟨0, 0, 0⟩ },
         { s4p2 with vel := ⟨5, 0⟩, color := ⟨0, 0, 0⟩ }] (1/10)) :=
  step_collisions_before_integration sourceConfig (1/10) [s4p1, s4p2] _
    (by with_unfolding_all rfl)

/-- **C3.** A particle strictly inside the walls (`rad ≤ pos.x ≤ W - rad`,
`rad ≤ pos.y ≤ H - rad`) that the collision sweep left untouched moves in
one step to `pos + vel·dt` with new velocity `vel + (A - vel²·R)·dt`,
component-wise. -/
theorem free_flight_step (cfg : Config) (dt : ℚ) (ps qs : List Particle) (i : ℕ)
    (p : Particle) (hc : GameState.handle_collisions cfg ps = some qs)
    (hqi : qs[i]? = some p) (_hpi : ps[i]? = some p)
    (hx1 : p.rad ≤ p.pos.x) (hx2 : p.pos.x ≤ cfg.screenWidth - p.rad)
    (hy1 : p.rad ≤ p.pos.y) (hy2 : p.pos.y ≤ cfg.screenHeight - p.rad) :
    ∃ rs, GameState.update cfg ps dt = some rs ∧
      rs[i]? = some { p with
        pos := ⟨p.pos.x + p.vel.x * dt, p.pos.y + p.vel.y * dt⟩,
        vel := ⟨p.vel.x + (cfg.acceleration.x - p.vel.x * p.vel.x * cfg.resistance.x) * dt,
                p.vel.y + (cfg.acceleration.y - p.vel.y * p.vel.y * cfg.resistance.y) * dt⟩ } := by
  have hrx : reflectVelX cfg p = p.vel.x := by
    rw [reflectVelX, if_neg (not_lt.mpr (by linarith)), if_neg (not_lt.mpr (by linarith))]
  have hry : reflectVelY cfg p = p.vel.y := by
    rw [reflectVelY, if_neg (not_lt.mpr (by linarith)), if_neg (not_lt.mpr (by linarith))]
  refine ⟨GameState.handle_movement cfg qs dt,
    by simp only [GameState.update, hc, Option.map_some'], ?_⟩
  rw [GameState.handle_movement, List.getElem?_map, hqi]
  simp only [Option.map_some']
  rw [Particle.update, hrx, hry]

/-- Witness for `free_flight_step`: scenario S1 (one particle, `A = R = 0`,
`dt = 1/10`) ends at `pos = (641, 360)` with `vel = (10, 0)`. -/
theorem free_flight_step_s1 :
    ∃ rs, GameState.update cfgNoAccel [s1p] (1/10) = some rs ∧
      rs[0]? = some { s1p with pos := ⟨641, 360⟩, vel := ⟨10, 0⟩ } := by
  obtain ⟨rs, h1, h2⟩ :=
    free_flight_step cfgNoAccel (1/10) [s1p] [s1p] 0 s1p rfl rfl rfl
      (by norm_num [s1p]) (by norm_num [s1p, cfgNoAccel])
      (by norm_num [s1p]) (by norm_num [s1p, cfgNoAccel])
  refine ⟨rs, h1, ?_⟩
  rw [h2]
  with_unfolding_all rfl

/-- **C4.** Wall reflection is evaluated before the position advance: with
`e ≥ 0`, if at entry `pos.x - rad < 0` then the corrected x-velocity is
`|vel.x|·e` (nonnegative); else if `pos.x + rad > W` it is `-(|vel.x|·e)`;
analogously for y; and the position is advanced with the corrected
velocity. -/
theorem wall_reflection_before_advance (cfg : Config) (p : Particle) (dt : ℚ)
    (he : 0 ≤ cfg.restitution) :
    (p.pos.x - p.rad < 0 →
      reflectVelX cfg p = |p.vel.x| * cfg.restitution ∧ 0 ≤ reflectVelX cfg p) ∧
    (¬p.pos.x - p.rad < 0 → p.pos.x + p.rad > cfg.screenWidth →
      reflectVelX cfg p = -(|p.vel.x| * cfg.restitution)) ∧
    (p.pos.y - p.rad < 0 →
      reflectVelY cfg p = |p.vel.y| * cfg.restitution ∧ 0 ≤ reflectVelY cfg p) ∧
    (¬p.pos.y - p.rad < 0 → p.pos.y + p.rad > cfg.screenHeight →
      reflectVelY cfg p = -(|p.vel.y| * cfg.restitution)) ∧
    (p.update cfg dt).pos =
      ⟨p.pos.x + reflectVelX cfg p * dt, p.pos.y + reflectVelY cfg p * dt⟩ := by
  refine ⟨?_, ?_, ?_, ?_, rfl⟩
  · intro h
    rw [reflectVelX, if_pos h]
    exact ⟨rfl, mul_nonneg (abs_nonneg _) he⟩
  · intro h1 h2
    rw [reflectVelX, if_neg h1, if_pos h2, mul_neg]
  · intro h
    rw [reflectVelY, if_pos h]
    exact ⟨rfl, mul_nonneg (abs_nonneg _) he⟩
  · intro h1 h2
    rw [reflectVelY, if_neg h1, if_pos h2, mul_neg]

/-- Witness for `wall_reflection_before_advance`: scenario S2
(`pos=(5,360)`, `vel=(-20,0)`, `rad=10`, `dt=1/10`): the reflected
x-velocity is `+20` and the particle ends at `pos.x = 7`. -/
theorem wall_reflection_before_advance_s2 :
    s2p.pos.x - s2p.rad < 0 ∧ reflectVelX cfgNoAccel s2p = 20 ∧
      0 ≤ reflectVelX cfgNoAccel s2p ∧
      (s2p.update cfgNoAccel (1/10)).pos.x = 7 := by
  have hcond : s2p.pos.x - s2p.rad < 0 := by norm_num [s2p]
  obtain ⟨hA, -, -, -, hE⟩ :=
    wall_reflection_before_advance cfgNoAccel s2p (1/10) (by norm_num [cfgNoAccel])
  obtain ⟨h1, h2⟩ := hA hcond
  refine ⟨hcond, ?_, h2, ?_⟩
  · rw [h1]
    with_unfolding_all rfl
  · have hx := congrArg Vec2.x hE
    rw [hx, h1]
    with_unfolding_all rfl

lemma magSq_nonneg (v : Vec2) : 0 ≤ v.magSq :=
  add_nonneg (mul_self_nonneg _) (mul_self_nonneg _)

lemma distSq_nonneg (p q : Particle) : 0 ≤ p.distSq q :=
  add_nonneg (mul_self_nonneg _) (mul_self_nonneg _)

lemma newColor_zero_first (v1 v2 : Vec2) (h : v1.magSq = 0) :
    (newColor v1 v2).r = 0 ∧ (newColor v1 v2).b = 0 := by
  simp [newColor, h, floorDivSqrt_zero_den, u8clamp]

lemma newColor_zero_second (v1 v2 : Vec2) (h : v2.magSq = 0) :
    (newColor v1 v2).g = 0 ∧ (newColor v1 v2).b = 0 := by
  simp [newColor, h, floorDivSqrt_zero_den, u8clamp]

/-- **C5 (corrected).** The source does *not* guard the division by the
post-collision speeds.  For every colliding pair the color is
overwritten on both particles; when the post-collision velocity of
either particle is the zero vector, the ratios involving that particle
are `0/0` (Rust: `NaN`, cast to `0` by `as u8`; exactly `0` in the
rational model), so the channels involving it come out `0` — R and B for
particle `i`, G and B for particle `j` — rather than the colors being
kept. -/
theorem color_zero_speed_overwrite (cfg : Config) (ps : List Particle) (i j : ℕ)
    (pi pj : Particle) (hij : i < j) (hi : ps[i]? = some pi) (hj : ps[j]? = some pj)
    (hcol : pi.is_colliding pj = true) :
    ∃ qs, collidePair cfg ps i j = some qs ∧
      (qs[i]?).map Particle.color = some (newColor
        (v1formula cfg.restitution (pj.mass / pi.mass) pi.vel pj.vel)
        (v2formula cfg.restitution (pj.mass / pi.mass) pi.vel pj.vel)) ∧
      (qs[j]?).map Particle.color = some (newColor
        (v1formula cfg.restitution (pj.mass / pi.mass) pi.vel pj.vel)
        (v2formula cfg.restitution (pj.mass / pi.mass) pi.vel pj.vel)) ∧
      ((v1formula cfg.restitution (pj.mass / pi.mass) pi.vel pj.vel).magSq = 0 →
        (newColor (v1formula cfg.restitution (pj.mass / pi.mass) pi.vel pj.vel)
          (v2formula cfg.restitution (pj.mass / pi.mass) pi.vel pj.vel)).r = 0 ∧
        (newColor (v1formula cfg.restitution (pj.mass / pi.mass) pi.vel pj.vel)
          (v2formula cfg.restitution (pj.mass / pi.mass) pi.vel pj.vel)).b = 0) ∧
      ((v2formula cfg.restitution (pj.mass / pi.mass) pi.vel pj.vel).magSq = 0 →
        (newColor (v1formula cfg.restitution (pj.mass / pi.mass) pi.vel pj.vel)
          (v2formula cfg.restitution (pj.mass / pi.mass) pi.vel pj.vel)).g = 0 ∧
        (newColor (v1formula cfg.restitution (pj.mass / pi.mass) pi.vel pj.vel)
          (v2formula cfg.restitution (pj.mass / pi.mass) pi.vel pj.vel)).b = 0) := by
  obtain ⟨hilt, -⟩ := List.getElem?_eq_some.mp hi
  obtain ⟨hjlt, -⟩ := List.getElem?_eq_some.mp hj
  rw [collidePair_result cfg ps i j pi pj hi hj hcol]
  obtain ⟨e1, e2⟩ := set_set_getElem? ps i j _ _ (Nat.ne_of_lt hij) hilt hjlt
  refine ⟨_, rfl, by rw [e1]; rfl, by rw [e2]; rfl, ?_, ?_⟩
  · exact fun h0 => newColor_zero_first _ _ h0
  · exact fun h0 => newColor_zero_second _ _ h0

/-- Counterexample to C5 as stated: with `e = 1`, equal masses, `u1=(3,4)`
and `u2=(0,0)`, the post-collision velocity of particle 0 is `(0,0)`
(speed zero), yet the color update is *not* skipped: both particles'
colors change from `(170,216,211)` to `(0,122,0)`. -/
theorem color_guard_cex :
    (collidePair sourceConfig [c5pa, c5pb] 0 1).map (List.map Particle.vel) =
      some [⟨0, 0⟩, ⟨3, 4⟩] ∧
    (collidePair sourceConfig [c5pa, c5pb] 0 1).map (List.map Particle.color) =
      some [⟨0, 122, 0⟩, ⟨0, 122, 0⟩] ∧
    c5pa.color ≠ (⟨0, 122, 0⟩ : Color) ∧ c5pb.color ≠ (⟨0, 122, 0⟩ : Color) :=
  ⟨by with_unfolding_all rfl, by with_unfolding_all rfl, by decide, by decide⟩

/-- Witness for `color_zero_speed_overwrite`: the concrete pair whose
first particle has post-collision velocity `(0,0)`; both colors become
`(0,122,0)`, whose R and B channels are `0`. -/
theorem color_zero_speed_overwrite_inst :
    ∃ qs, collidePair sourceConfig [c5pa, c5pb] 0 1 = some qs ∧
      (qs[0]?).map Particle.color = some ⟨0, 122, 0⟩ ∧
      (qs[1]?).map Particle.color = some ⟨0, 122, 0⟩ ∧
      (newColor (v1formula sourceConfig.restitution (c5pb.mass / c5pa.mass) c5pa.vel c5pb.vel)
        (v2formula sourceConfig.restitution (c5pb.mass / c5pa.mass) c5pa.vel c5pb.vel)).r = 0 ∧
      (newColor (v1formula sourceConfig.restitution (c5pb.mass / c5pa.mass) c5pa.vel c5pb.vel)
        (v2formula sourceConfig.restitution (c5pb.mass / c5pa.mass) c5pa.vel c5pb.vel)).b = 0 := by
  obtain ⟨qs, h1, h2, h3, h4, -⟩ :=
    color_zero_speed_overwrite sourceConfig [c5pa, c5pb] 0 1 c5pa c5pb
      (by omega) rfl rfl (by with_unfolding_all rfl)
  obtain ⟨hr, hb⟩ := h4 (by with_unfolding_all rfl)
  refine ⟨qs, h1, ?_, ?_, hr, hb⟩
  · rw [h2]
    with_unfolding_all rfl
  · rw [h3]
    with_unfolding_all rfl

/-- **C6.** For nonzero post-collision speeds, with
`a = |v1.x|/s1`, `b = |v1.y|/s1`, `c = |v2.x|/s2`, `d = |v2.y|/s2`
(`s1, s2` the real square roots of the squared magnitudes), the new color
has channels `R = ⌊a·b·256⌋`, `G = ⌊c·d·256⌋`, `B = ⌊d·a·256⌋`, each
clamped to `[0, 255]`; and both particles of a colliding pair are
assigned this same color. -/
theorem collision_color_channels (v1 v2 : Vec2)
    (h1 : v1.magSq ≠ 0) (h2 : v2.magSq ≠ 0) :
    ((newColor v1 v2).r =
        min 255 (⌊|(v1.x : ℝ)| / Real.sqrt ((v1.magSq : ℚ) : ℝ) *
          (|(v1.y : ℝ)| / Real.sqrt ((v1.magSq : ℚ) : ℝ)) * 256⌋).toNat ∧
     (newColor v1 v2).g =
        min 255 (⌊|(v2.x : ℝ)| / Real.sqrt ((v2.magSq : ℚ) : ℝ) *
          (|(v2.y : ℝ)| / Real.sqrt ((v2.magSq : ℚ) : ℝ)) * 256⌋).toNat ∧
     (newColor v1 v2).b =
        min 255 (⌊|(v2.y : ℝ)| / Real.sqrt ((v2.magSq : ℚ) : ℝ) *
          (|(v1.x : ℝ)| / Real.sqrt ((v1.magSq : ℚ) : ℝ)) * 256⌋).toNat) ∧
    ∀ (cfg : Config) (ps : List Particle) (i j : ℕ) (pi pj : Particle),
      i < j → ps[i]? = some pi → ps[j]? = some pj → pi.is_colliding pj = true →
      ∃ qs, collidePair cfg ps i j = some qs ∧
        (qs[i]?).map Particle.color = some (newColor
          (v1formula cfg.restitution (pj.mass / pi.mass) pi.vel pj.vel)
          (v2formula cfg.restitution (pj.mass / pi.mass) pi.vel pj.vel)) ∧
        (qs[j]?).map Particle.color = some (newColor
          (v1formula cfg.restitution (pj.mass / pi.mass) pi.vel pj.vel)
          (v2formula cfg.restitution (pj.mass / pi.mass) pi.vel pj.vel)) := by
  have hp1 : 0 < v1.magSq := lt_of_le_of_ne (magSq_nonneg v1) (Ne.symm h1)
  have hp2 : 0 < v2.magSq := lt_of_le_of_ne (magSq_nonneg v2) (Ne.symm h2)
  refine ⟨⟨?_, ?_, ?_⟩, ?_⟩
  · exact u8_channel_eq v1.x v1.y v1.magSq v1.magSq hp1 hp1
  · exact u8_channel_eq v2.x v2.y v2.magSq v2.magSq hp2 hp2
  · exact u8_channel_eq v2.y v1.x v2.magSq v1.magSq hp2 hp1
  · intro cfg ps i j pi pj hij hi hj hcol
    obtain ⟨hilt, -⟩ := List.getElem?_eq_some.mp hi
    obtain ⟨hjlt, -⟩ := List.getElem?_eq_some.mp hj
    rw [collidePair_result cfg ps i j pi pj hi hj hcol]
    obtain ⟨e1, e2⟩ := set_set_getElem? ps i j _ _ (Nat.ne_of_lt hij) hilt hjlt
    exact ⟨_, rfl, by rw [e1]; rfl, by rw [e2]; rfl⟩

/-- Witness for `collision_color_channels`: `v1 = (3,4)`, `v2 = (6,8)`
(speeds 5 and 10); all three products are `0.48`, so all channels are
`⌊122.88⌋ = 122`. -/
theorem collision_color_channels_inst :
    Vec2.magSq ⟨3, 4⟩ ≠ 0 ∧ Vec2.magSq ⟨6, 8⟩ ≠ 0 ∧
    newColor ⟨3, 4⟩ ⟨6, 8⟩ = ⟨122, 122, 122⟩ ∧
    (newColor ⟨3, 4⟩ ⟨6, 8⟩).r =
      min 255 (⌊|((⟨3, 4⟩ : Vec2).x : ℝ)| / Real.sqrt ((Vec2.magSq ⟨3, 4⟩ : ℚ) : ℝ) *
        (|((⟨3, 4⟩ : Vec2).y : ℝ)| / Real.sqrt ((Vec2.magSq ⟨3, 4⟩ : ℚ) : ℝ)) * 256⌋).toNat := by
  refine ⟨by norm_num [Vec2.magSq], by norm_num [Vec2.magSq],
    by with_unfolding_all rfl, ?_⟩
  exact ((collision_color_channels ⟨3, 4⟩ ⟨6, 8⟩ (by norm_num [Vec2.magSq])
    (by norm_num [Vec2.magSq])).1).1

/-- **C7.** `is_colliding` is symmetric, and it holds exactly when
`distance(other) - (rad + other.rad) ≤ 0.5` with `distance` the real
Euclidean distance `√distSq`. -/
theorem is_colliding_symm (p q : Particle) :
    p.is_colliding q = q.is_colliding p ∧
    (p.is_colliding q = true ↔
      Real.sqrt ((p.distSq q : ℚ) : ℝ) - ((p.rad : ℝ) + (q.rad : ℝ)) ≤ 1 / 2) := by
  constructor
  · have hd : p.distSq q = q.distSq p := by
      unfold Particle.distSq
      ring
    rw [Particle.is_colliding, Particle.is_colliding, hd, add_comm p.rad q.rad]
  · rw [Particle.is_colliding, sqrtLe, decide_eq_true_iff]
    have hcast : ((p.rad + q.rad + 1 / 2 : ℚ) : ℝ) = (p.rad : ℝ) + q.rad + 1 / 2 := by
      push_cast
      ring
    constructor
    · rintro ⟨ht, hle⟩
      have ht' : (0 : ℝ) ≤ ((p.rad + q.rad + 1 / 2 : ℚ) : ℝ) := by exact_mod_cast ht
      have hle' : ((p.distSq q : ℚ) : ℝ) ≤
          ((p.rad + q.rad + 1 / 2 : ℚ) : ℝ) * ((p.rad + q.rad + 1 / 2 : ℚ) : ℝ) := by
        exact_mod_cast hle
      have hs := Real.sqrt_le_sqrt hle'
      rw [Real.sqrt_mul_self ht', hcast] at hs
      linarith
    · intro h
      have hs : Real.sqrt ((p.distSq q : ℚ) : ℝ) ≤ ((p.rad + q.rad + 1 / 2 : ℚ) : ℝ) := by
        rw [hcast]
        linarith
      have ht' : (0 : ℝ) ≤ ((p.rad + q.rad + 1 / 2 : ℚ) : ℝ) :=
        le_trans (Real.sqrt_nonneg _) hs
      have hd0 : (0 : ℝ) ≤ ((p.distSq q : ℚ) : ℝ) := by
        have hd := distSq_nonneg p q
        exact_mod_cast hd
      have hsq : ((p.distSq q : ℚ) : ℝ) ≤
          ((p.rad + q.rad + 1 / 2 : ℚ) : ℝ) * ((p.rad + q.rad + 1 / 2 : ℚ) : ℝ) := by
        calc ((p.distSq q : ℚ) : ℝ)
            = Real.sqrt ((p.distSq q : ℚ) : ℝ) * Real.sqrt ((p.distSq q : ℚ) : ℝ) :=
              (Real.mul_self_sqrt hd0).symm
        _ ≤ _ := mul_le_mul hs hs (Real.sqrt_nonneg _) ht'
      exact ⟨by exact_mod_cast ht', by exact_mod_cast hsq⟩

/-- Counterexample to C8 as stated: with `e = 1`, `r = 2`, `u1 = (10,0)`,
`u2 = (-10,0)`, applying the formula to the swapped pair with `r' = 1/2`
gives `v1' = (7.5, 0)`, not the swapped result `v2 = (5, 0)`. -/
theorem collision_swap_cex :
    ¬(v1formula 1 (1 / 2) ⟨-10, 0⟩ ⟨10, 0⟩ = v2formula 1 2 ⟨10, 0⟩ ⟨-10, 0⟩ ∧
      v2formula 1 (1 / 2) ⟨-10, 0⟩ ⟨10, 0⟩ = v1formula 1 2 ⟨10, 0⟩ ⟨-10, 0⟩) := by
  rintro ⟨h1, -⟩
  have hx := congrArg Vec2.x h1
  simp only [v1formula, v2formula] at hx
  norm_num at hx

/-- **C8 (corrected).** The collision formula is swap-symmetric only in
the equal-mass case `r = 1` (where also `r' = 1/r = 1`): for all `e`,
`u1`, `u2`, `v1(u2, u1, 1/1) = v2(u1, u2, 1)` and
`v2(u2, u1, 1/1) = v1(u1, u2, 1)`.  For `r ≠ 1` the symmetry fails
(`collision_swap_cex`). -/
theorem collision_swap_equal_mass (e : ℚ) (u1 u2 : Vec2) :
    v1formula e (1 / 1) u2 u1 = v2formula e 1 u1 u2 ∧
    v2formula e (1 / 1) u2 u1 = v1formula e 1 u1 u2 := by
  constructor <;>
    · simp only [v1formula, v2formula, Vec2.mk.injEq]
      constructor <;> ring

/-- **C9.** A whole step (`collision sweep` then integration) never
changes any particle's `rad` or `mass`; only `pos`, `vel` and `color` are
mutated. -/
theorem step_preserves_rad_mass (cfg : Config) (dt : ℚ) (ps rs : List Particle)
    (h : GameState.update cfg ps dt = some rs) :
    rs.map Particle.rad = ps.map Particle.rad ∧
    rs.map Particle.mass = ps.map Particle.mass := by
  cases hc : GameState.handle_collisions cfg ps with
  | none =>
    rw [GameState.update, hc] at h
    simp at h
  | some qs =>
    rw [GameState.update, hc] at h
    simp only [Option.map_some', Option.some.injEq] at h
    have hne : ps ≠ [] := by
      intro h0
      rw [h0] at hc
      simp [GameState.handle_collisions] at hc
    obtain ⟨qs2, hq2, -, -, hrad, hmass⟩ := handle_collisions_spec cfg ps hne
    rw [hc] at hq2
    cases hq2
    subst h
    constructor
    · rw [GameState.handle_movement, List.map_map]
      exact hrad
    · rw [GameState.handle_movement, List.map_map]
      exact hmass

/-- Witness for `step_preserves_rad_mass`: one full S4 step keeps
`rad = [10, 10]` and `mass = [1, 2]`. -/
theorem step_preserves_rad_mass_s4 :
    ∃ rs, GameState.update sourceConfig [s4p1, s4p2] (1 / 10) = some rs ∧
      rs.map Particle.rad = [10, 10] ∧ rs.map Particle.mass = [1, 2] := by
  have h : GameState.update sourceConfig [s4p1, s4p2] (1 / 10) =
      some [{ s4p1 with pos := ⟨197 / 2, 360⟩, vel := ⟨-151 / 10, 1 / 5⟩, color := ⟨0, 0, 0⟩ },
            { s4p2 with pos := ⟨231 / 2, 360⟩, vel := ⟨49 / 10, 1 / 5⟩, color := ⟨0, 0, 0⟩ }] := by
    with_unfolding_all rfl
  obtain ⟨h1, h2⟩ := step_preserves_rad_mass sourceConfig (1 / 10) [s4p1, s4p2] _ h
  exact ⟨_, h, by rw [h1]; with_unfolding_all rfl, by rw [h2]; with_unfolding_all rfl⟩

/-- **C10.** With no particles the sweep fails (the Rust loop bound
`num_particles - 1` underflows `usize`), modelled as `none`; for every
non-empty particle set all index accesses of the pair sweep are in
bounds, so the sweep returns `some`; and with exactly one particle no
pair is visited, so the state is returned unchanged. -/
theorem pair_sweep_bounds (cfg : Config) :
    GameState.handle_collisions cfg [] = none ∧
    (∀ ps : List Particle, ps ≠ [] → ∃ qs, GameState.handle_collisions cfg ps = some qs) ∧
    (∀ p : Particle, GameState.handle_collisions cfg [p] = some [p]) := by
  refine ⟨rfl, ?_, fun p => rfl⟩
  intro ps hne
  obtain ⟨qs, hq, -, -, -, -⟩ := handle_collisions_spec cfg ps hne
  exact ⟨qs, hq⟩

/-- Witness for `pair_sweep_bounds`: the sweep succeeds on the non-empty
S4 pair. -/
theorem pair_sweep_bounds_inst :
    ∃ qs, GameState.handle_collisions sourceConfig [s4p1, s4p2] = some qs :=
  (pair_sweep_bounds sourceConfig).2.1 [s4p1, s4p2] (by simp)
